import Mathlib

/-!
Shallow embedding of the interactive terminal mode engine of `taskn`
(`src/commands/interactive/mod.rs` and `src/taskwarrior.rs`), together with
proofs about its snapshot and mode behaviour.

Modelling conventions:
* Rust `usize` arithmetic is `Nat` with explicit wrapping modulo `2 ^ 64`
  where the source may underflow (release-build semantics of
  `tasks.len() - 1`); `usizeSub1` is that wrapping decrement.
* Fallible operations (`Vec` indexing, `Vec::remove`, `Vec::insert`, the
  `panic!` in `selected_contents`) are modelled with `Option`: `none` marks a
  panic of the source program.
* The external task store (taskwarrior) is modelled as a `List Task`; a fetch
  (`task ... export`) filters it, preserving order, and `Task::save` is the
  `task <uuid> modify <description> status:<status>` call of the source: it
  rewrites only `description` and `status` of the matching stored task (the
  estimate/wait writes are commented out in the source).
* `Vec::sort_by` is a stable sort by a total comparator.  For a transitive,
  total comparator the output of a stable sort is unique, so any stable
  sorting algorithm is a faithful model; we use `List.insertionSort` (stable,
  structurally recursive, hence executable in proofs) with
  `le a b := cmp a b ≠ .gt`.
* Rust `Option::partial_cmp` on `Option<String>` is derived: `None` is least;
  `String` comparison is lexicographic on UTF-8 bytes, which coincides with
  lexicographic comparison of the codepoint sequence, modelled on
  `List Char` mapped to `Nat`.
-/

namespace Taskn

/-- Number of values of a 64-bit `usize`. -/
def USIZE_BOUND : Nat := 2 ^ 64

/-- Wrapping `n - 1` on `usize` (release-build semantics of Rust's `len() - 1`
when `len` may be `0`). -/
def usizeSub1 (n : Nat) : Nat := (n + USIZE_BOUND - 1) % USIZE_BOUND

/-- Terminal key codes (the `termion::event::Key` variants the program can
receive; variants never matched by the source are still represented so that
"unrecognized key" claims quantify over them). -/
inductive Key where
  | up
  | down
  | left
  | right
  | backspace
  | delete
  | home
  | esc
  | char : Char → Key
  | ctrl : Char → Key
  | alt : Char → Key
deriving DecidableEq

/-- The task record deserialized from `task export`
(`src/taskwarrior.rs`, `struct Task`).  `wait` is an opaque timestamp string
here (`ParsableDateTime` in the source); the macOS-only
reminder-uuid field is omitted. -/
structure Task where
  id : Nat
  description : String
  uuid : String
  status : String
  estimate : Option String
  tags : Option (List String)
  wait : Option String
deriving DecidableEq

/-- Membership test on the optional tag list (`Task::has_tag`). -/
def Task.hasTag (t : Task) (s : String) : Bool :=
  match t.tags with
  | none => false
  | some tags => tags.contains s

/-- The `task <uuid> modify <description> status:<status>` command issued by
`Task::save`.  NOTE (faithful to the source): the writes of `estimate`,
`wait` and the reminder uuid are commented out in `save`, so only
`description` and `status` of the matching stored task are rewritten. -/
def Task.save (t : Task) (store : List Task) : List Task :=
  store.map (fun s =>
    if s.uuid = t.uuid then
      { s with description := t.description, status := t.status }
    else s)

/-- Command-line options relevant to the interactive engine: `--only-taskn`
narrows the load filter by the `+taskn` tag. -/
structure Opt where
  only_taskn : Bool

/-- The fetch performed by `CommonState::load_from_taskwarrior`:
`Task::get(["status:pending"])`, narrowed to `+taskn` when requested.  The
store model returns matching tasks in store order. -/
def fetchTasks (opt : Opt) (store : List Task) : List Task :=
  store.filter (fun t =>
    t.status == "pending" && (if opt.only_taskn then t.hasTag "taskn" else true))

/-- Lexicographic comparison of `Nat` sequences; shorter prefixes compare
less, matching Rust's slice ordering on the byte sequences of strings. -/
def listNatCmp : List Nat → List Nat → Ordering
  | [], [] => Ordering.eq
  | [], _ :: _ => Ordering.lt
  | _ :: _, [] => Ordering.gt
  | a :: as, b :: bs =>
    if a < b then Ordering.lt else if b < a then Ordering.gt else listNatCmp as bs

/-- Rust `str` ordering: lexicographic on UTF-8 bytes, equivalently on the
codepoint sequence. -/
def strCmp (a b : String) : Ordering :=
  listNatCmp (a.data.map Char.toNat) (b.data.map Char.toNat)

/-- Rust `String::partial_cmp`: strings are totally ordered, so this is
always `some`. -/
def stringPartialCmp (a b : String) : Option Ordering := some (strCmp a b)

/-- Derived `PartialOrd` on `Option<String>` (`None` is least), the
comparator `a.estimate.partial_cmp(&b.estimate)` is built from. -/
def optEstimateCmp : Option String → Option String → Option Ordering
  | none, none => some Ordering.eq
  | none, some _ => some Ordering.lt
  | some _, none => some Ordering.gt
  | some a, some b => stringPartialCmp a b

/-- The boolean "less or equal" induced by the sort comparator
`a.estimate.partial_cmp(&b.estimate).unwrap()` of `load_from_taskwarrior`. -/
def estimateLe (a b : Task) : Bool :=
  match (optEstimateCmp a.estimate b.estimate).getD Ordering.eq with
  | Ordering.gt => false
  | _ => true

/-- The sort relation as a decidable proposition (for `List.insertionSort`). -/
def estLeProp (a b : Task) : Prop := estimateLe a b = true

instance instDecEstLeProp : DecidableRel estLeProp :=
  fun a b => Bool.decEq (estimateLe a b) true

/-- The `tasks.sort_by(...)` call of `load_from_taskwarrior`: a stable sort
by the estimate comparator (stable sorts by a transitive total comparator
are unique, so insertion sort models Rust's stable `sort_by` exactly). -/
def sortTasks (l : List Task) : List Task := l.insertionSort estLeProp

/-- The `tui::widgets::ListState` cursor (only the selection matters to this
engine). -/
structure ListState where
  selected : Option Nat
deriving DecidableEq

/-- The snapshot (`struct CommonState`): cursor, ordered tasks and the
preloaded note contents, keyed by uuid. -/
structure CommonState where
  list_state : ListState
  tasks : List Task
  tasks_contents : List (String × String)
deriving DecidableEq

/-- `CommonState::selected`: `list_state.selected().unwrap_or(0)`. -/
def CommonState.selected (cs : CommonState) : Nat :=
  cs.list_state.selected.getD 0

/-- `CommonState::selected_contents`.  `none` models a panic: either the
unchecked indexing `self.tasks[selected]` or the explicit
`panic!("selected invariant violated")` when no uuid matches. -/
def CommonState.selected_contents (cs : CommonState) : Option String :=
  match cs.tasks[cs.selected]? with
  | none => none
  | some t =>
    match cs.tasks_contents.find? (fun p => p.1 == t.uuid) with
    | none => none
    | some p => some p.2

/-- `CommonState::load_from_taskwarrior`: fetch, sort by estimate, select
index 0 when non-empty, preload each task's note contents (the note store is
the function `notes : uuid → text`). -/
def load_from_taskwarrior (opt : Opt) (notes : String → String) (store : List Task) :
    CommonState :=
  let tasks := sortTasks (fetchTasks opt store)
  let list_state : ListState := { selected := if tasks.isEmpty then none else some 0 }
  let tasks_contents := tasks.map (fun t => (t.uuid, notes t.uuid))
  { list_state := list_state, tasks := tasks, tasks_contents := tasks_contents }

/-- The store writes of `CommonState::flush_to_taskwarrior`: each task gets
`estimate = Some(order.to_string())` in memory and is saved in sequence
order (but `Task.save` does not write the estimate field). -/
def flushStore (tasks : List Task) (store : List Task) : List Task :=
  (tasks.enum.map (fun p => { p.2 with estimate := some (toString p.1) })).foldl
    (fun st t => Task.save t st) store

/-- `CommonState::flush_to_taskwarrior`: save every task in order, reload,
then re-select the old index, clamped by `new_selected = len - 1` (usize
arithmetic) when it is not below the new length.  Returns the new snapshot
and the new store. -/
def flush_to_taskwarrior (opt : Opt) (notes : String → String) (cs : CommonState)
    (store : List Task) : CommonState × List Task :=
  let new_selected := cs.selected
  let store2 := flushStore cs.tasks store
  let new_self := load_from_taskwarrior opt notes store2
  let new_selected2 :=
    if new_self.tasks.length ≤ new_selected then usizeSub1 new_self.tasks.length
    else new_selected
  ({ new_self with list_state := { selected := some new_selected2 } }, store2)

/-- The three interactive modes; `shift` carries `original_pos`. -/
inductive ModeT where
  | normal
  | shift : Nat → ModeT
  | done
deriving DecidableEq

/-- `struct ActionResult` returned by `Mode::update`. -/
structure ActionResult where
  new_mode : Option ModeT
  should_load : Bool
  should_flush : Bool
deriving DecidableEq

/-- The `ActionResult::default()` value (no mode change, no directives). -/
def noAction : ActionResult :=
  { new_mode := none, should_load := false, should_flush := false }

/-- `Vec::swap`: exchanges two elements; `none` models the panic on an
out-of-bounds index. -/
def swapOpt (l : List Task) (i j : Nat) : Option (List Task) :=
  match l[i]?, l[j]? with
  | some a, some b => some ((l.set i b).set j a)
  | _, _ => none

/-- `Normal::update`.  The `'X'` arm models `task_edit`, which indexes
`tasks[selected]` (panics out of bounds) and otherwise only runs an external
process. -/
def normalUpdate (cs : CommonState) (key : Key) : Option (CommonState × ActionResult) :=
  let selected := cs.selected
  if key = Key.up ∨ key = Key.char 'k' ∨ key = Key.char 'K' then
    some (if selected > 0 then
      { cs with list_state := { selected := some (selected - 1) } } else cs, noAction)
  else if key = Key.down ∨ key = Key.char 'j' ∨ key = Key.char 'J' then
    some (if selected < usizeSub1 cs.tasks.length then
      { cs with list_state := { selected := some (selected + 1) } } else cs, noAction)
  else if key = Key.char 'g' then
    some ({ cs with list_state := { selected := some 0 } }, noAction)
  else if key = Key.char 'G' then
    some ({ cs with list_state := { selected := some (usizeSub1 cs.tasks.length) } }, noAction)
  else if key = Key.char 'd' then
    some (cs, { new_mode := some ModeT.done, should_load := false, should_flush := false })
  else if key = Key.char 's' then
    some (cs, { new_mode := some (ModeT.shift selected), should_load := false,
                should_flush := false })
  else if key = Key.char 'X' then
    if selected < cs.tasks.length then some (cs, noAction) else none
  else
    some (cs, noAction)

/-- `Shift::update` with the remembered `original_pos`.  The esc/ctrl-f arm
is the undo: `remove(selected)` then `insert(original_pos, task)` (both can
panic, modelled by `none`). -/
def shiftUpdate (original_pos : Nat) (cs : CommonState) (key : Key) :
    Option (CommonState × ActionResult) :=
  if key = Key.up ∨ key = Key.char 'k' ∨ key = Key.char 'K' then
    let selected := cs.selected
    if selected > 0 then
      match swapOpt cs.tasks selected (selected - 1) with
      | none => none
      | some ts =>
        some ({ cs with tasks := ts, list_state := { selected := some (selected - 1) } },
              noAction)
    else some (cs, noAction)
  else if key = Key.down ∨ key = Key.char 'j' ∨ key = Key.char 'J' then
    let selected := cs.selected
    if selected < usizeSub1 cs.tasks.length then
      match swapOpt cs.tasks selected (selected + 1) with
      | none => none
      | some ts =>
        some ({ cs with tasks := ts, list_state := { selected := some (selected + 1) } },
              noAction)
    else some (cs, noAction)
  else if key = Key.char '\n' ∨ key = Key.char 's' then
    some (cs, { new_mode := some ModeT.normal, should_load := false, should_flush := true })
  else if key = Key.esc ∨ key = Key.ctrl 'f' then
    let selected := cs.selected
    match cs.tasks[selected]? with
    | none => none
    | some task =>
      let ts := cs.tasks.eraseIdx selected
      if original_pos ≤ ts.length then
        some ({ cs with tasks := List.insertIdx original_pos task ts,
                        list_state := { selected := some original_pos } },
              { new_mode := some ModeT.normal, should_load := false, should_flush := false })
      else none
  else
    some (cs, noAction)

/-- `Done::update`: enter marks the selected task done (unchecked indexing,
panic out of bounds) and requests a flush; esc/ctrl-f cancels. -/
def doneUpdate (cs : CommonState) (key : Key) : Option (CommonState × ActionResult) :=
  if key = Key.esc ∨ key = Key.ctrl 'f' then
    some (cs, { new_mode := some ModeT.normal, should_load := false, should_flush := false })
  else if key = Key.char '\n' then
    let selected := cs.selected
    match cs.tasks[selected]? with
    | none => none
    | some t =>
      some ({ cs with tasks := cs.tasks.set selected { t with status := "done" } },
            { new_mode := some ModeT.normal, should_load := false, should_flush := true })
  else
    some (cs, noAction)

/-- Dispatch of `mode.update` on the active mode variant. -/
def modeUpdate : ModeT → CommonState → Key → Option (CommonState × ActionResult)
  | ModeT.normal => normalUpdate
  | ModeT.shift op => shiftUpdate op
  | ModeT.done => doneUpdate

/-- The state of one interactive session: active mode, snapshot, the
external store, and whether the main loop has exited. -/
structure SessState where
  mode : ModeT
  cs : CommonState
  store : List Task
  quit : Bool
deriving DecidableEq

/-- One iteration of the main loop of `execute` on a key event: `q`/esc/
ctrl-c break the loop before any mode dispatch; otherwise the mode's update
runs, a returned mode is installed, and the flush (or load) directive is
executed against the store. -/
def stepKey (opt : Opt) (notes : String → String) (st : SessState) (key : Key) :
    Option SessState :=
  if st.quit then some st
  else if key = Key.char 'q' ∨ key = Key.esc ∨ key = Key.ctrl 'c' then
    some { st with quit := true }
  else
    match modeUpdate st.mode st.cs key with
    | none => none
    | some (cs2, result) =>
      let mode2 := result.new_mode.getD st.mode
      if result.should_flush then
        let p := flush_to_taskwarrior opt notes cs2 st.store
        some { mode := mode2, cs := p.1, store := p.2, quit := false }
      else if result.should_load then
        some { mode := mode2, cs := load_from_taskwarrior opt notes st.store,
               store := st.store, quit := false }
      else
        some { mode := mode2, cs := cs2, store := st.store, quit := false }

/-- Iterated session steps over a list of key events. -/
def runKeys (opt : Opt) (notes : String → String) : SessState → List Key → Option SessState
  | st, [] => some st
  | st, k :: ks =>
    match stepKey opt notes st k with
    | none => none
    | some st2 => runKeys opt notes st2 ks

/-- Session start: initial load, mode `Normal`. -/
def initSession (opt : Opt) (notes : String → String) (store : List Task) : SessState :=
  { mode := ModeT.normal, cs := load_from_taskwarrior opt notes store,
    store := store, quit := false }

/-- The list items produced by `render_tasks`: one item per task, its
description. -/
def renderTaskItems (cs : CommonState) : List String :=
  cs.tasks.map (fun t => t.description)

/-- Keys listed in the specification's transition table for a given mode
(including the global `q`/esc/ctrl-c row), extended with the uppercase
`K`/`J` aliases the source also matches. -/
def listedKey : ModeT → Key → Bool
  | ModeT.normal, k =>
    [Key.char 'q', Key.esc, Key.ctrl 'c', Key.up, Key.down, Key.char 'k', Key.char 'K',
     Key.char 'j', Key.char 'J', Key.char 'g', Key.char 'G', Key.char 's', Key.char 'd',
     Key.char 'X'].contains k
  | ModeT.shift _, k =>
    [Key.char 'q', Key.esc, Key.ctrl 'c', Key.up, Key.down, Key.char 'k', Key.char 'K',
     Key.char 'j', Key.char 'J', Key.char '\n', Key.char 's', Key.ctrl 'f'].contains k
  | ModeT.done, k =>
    [Key.char 'q', Key.esc, Key.ctrl 'c', Key.char '\n', Key.ctrl 'f'].contains k

/-- The swap keystrokes available in Shift mode (claim C5 quantifies over
sequences of these). -/
inductive SwapKey where
  | up
  | down
deriving DecidableEq

/-- Embedding of swap keystrokes into key events. -/
def SwapKey.toKey : SwapKey → Key
  | SwapKey.up => Key.up
  | SwapKey.down => Key.down

/-- Iterated `Shift::update` calls on a list of keys, keeping the snapshot
(the mode stays `Shift` as long as the result requests no mode change, which
is the case for swap keys). -/
def applyShiftKeys (original_pos : Nat) : CommonState → List Key → Option CommonState
  | cs, [] => some cs
  | cs, k :: ks =>
    match shiftUpdate original_pos cs k with
    | none => none
    | some (cs2, _) => applyShiftKeys original_pos cs2 ks

/-! Concrete fixtures used by counterexamples and witnesses. -/

/-- Default options: no `+taskn` narrowing. -/
def optDefault : Opt := { only_taskn := false }

/-- A note store in which every note is empty. -/
def notes0 : String → String := fun _ => ""

/-- A pending task with estimate `"1"`. -/
def taskA1 : Task := { id := 1, description := "A", uuid := "uuid-a", status := "pending",
                       estimate := some "1", tags := none, wait := none }

/-- A pending task with estimate `"2"`. -/
def taskB2 : Task := { id := 2, description := "B", uuid := "uuid-b", status := "pending",
                       estimate := some "2", tags := none, wait := none }

/-- A pending task with no estimate. -/
def taskNoEst : Task := { id := 3, description := "N", uuid := "uuid-n", status := "pending",
                          estimate := none, tags := none, wait := none }

/-- Two pending tasks with equal estimates (stability fixtures). -/
def taskEqA : Task := { id := 4, description := "EA", uuid := "uuid-ea", status := "pending",
                        estimate := some "5", tags := none, wait := none }

/-- Second task with the same estimate as `taskEqA`. -/
def taskEqB : Task := { id := 5, description := "EB", uuid := "uuid-eb", status := "pending",
                        estimate := some "5", tags := none, wait := none }

/-- A store holding `taskA1` and `taskB2`. -/
def store0 : List Task := [taskA1, taskB2]

/-- The snapshot produced by a load that fetches zero tasks. -/
def loadEmpty : CommonState := load_from_taskwarrior optDefault notes0 []

/-- A two-task snapshot with the cursor on index 1. -/
def csK : CommonState :=
  { list_state := { selected := some 1 }, tasks := [taskA1, taskB2], tasks_contents := [] }

/-- A Normal-mode session state over `csK`. -/
def stK : SessState := { mode := ModeT.normal, cs := csK, store := store0, quit := false }

/-- The session invariant behind claim C7: the store and snapshot lengths
are representable in usize, a non-empty snapshot always carries a valid
selection index, and a Shift mode entered on a non-empty snapshot remembers
an in-bounds original position. -/
def SessInv (st : SessState) : Prop :=
  st.store.length < USIZE_BOUND ∧
  st.cs.tasks.length < USIZE_BOUND ∧
  (st.cs.tasks ≠ [] → ∃ i, st.cs.list_state.selected = some i ∧ i < st.cs.tasks.length) ∧
  (∀ op, st.mode = ModeT.shift op → st.cs.tasks ≠ [] → op < st.cs.tasks.length)

/-! Properties of the estimate comparator. -/

/-- Reflexivity of the byte-sequence comparison. -/
theorem listNatCmp_self : ∀ l : List Nat, listNatCmp l l = Ordering.eq
  | [] => rfl
  | x :: xs => by simp [listNatCmp, listNatCmp_self xs]

/-- Swapping the arguments of the byte-sequence comparison swaps the
ordering. -/
theorem listNatCmp_swap (a : List Nat) : ∀ b, (listNatCmp a b).swap = listNatCmp b a := by
  induction a with
  | nil => intro b; cases b <;> rfl
  | cons x as ih =>
    intro b
    cases b with
    | nil => rfl
    | cons y bs =>
      by_cases h1 : x < y
      · have h2 : ¬ y < x := by omega
        simp [listNatCmp, h1, h2, Ordering.swap]
      · by_cases h2 : y < x
        · simp [listNatCmp, h1, h2, Ordering.swap]
        · simp [listNatCmp, h1, h2, ih bs]

/-- Transitivity of "not greater" for the byte-sequence comparison. -/
theorem listNatCmp_ne_gt_trans (a : List Nat) :
    ∀ b c, listNatCmp a b ≠ Ordering.gt → listNatCmp b c ≠ Ordering.gt →
      listNatCmp a c ≠ Ordering.gt := by
  induction a with
  | nil => intro b c _ _; cases c <;> simp [listNatCmp]
  | cons x as ih =>
    intro b c h1 h2
    cases b with
    | nil => simp [listNatCmp] at h1
    | cons y bs =>
      cases c with
      | nil => simp [listNatCmp] at h2
      | cons z cs =>
        simp only [listNatCmp] at h1 h2 ⊢
        by_cases hxy : x < y
        · by_cases hyz : y < z
          · have hxz : x < z := by omega
            simp [hxz]
          · by_cases hzy : z < y
            · rw [if_neg hyz, if_pos hzy] at h2
              exact absurd rfl h2
            · have hxz : x < z := by omega
              simp [hxz]
        · by_cases hyx : y < x
          · rw [if_neg hxy, if_pos hyx] at h1
            exact absurd rfl h1
          · rw [if_neg hxy, if_neg hyx] at h1
            by_cases hyz : y < z
            · have hxz : x < z := by omega
              simp [hxz]
            · by_cases hzy : z < y
              · rw [if_neg hyz, if_pos hzy] at h2
                exact absurd rfl h2
              · rw [if_neg hyz, if_neg hzy] at h2
                have hxz : ¬ x < z := by omega
                have hzx : ¬ z < x := by omega
                rw [if_neg hxz, if_neg hzx]
                exact ih bs cs h1 h2

/-- Characterization of the boolean sort relation in terms of the
comparator value. -/
theorem estimateLe_eq_true_iff (a b : Task) :
    estimateLe a b = true ↔
      (optEstimateCmp a.estimate b.estimate).getD Ordering.eq ≠ Ordering.gt := by
  unfold estimateLe
  cases h : (optEstimateCmp a.estimate b.estimate).getD Ordering.eq <;> simp

/-- Tasks with equal estimates are related by the sort relation. -/
theorem estLeProp_of_eq (a b : Task) (h : a.estimate = b.estimate) : estLeProp a b := by
  unfold estLeProp
  rw [estimateLe_eq_true_iff, h]
  cases hb : b.estimate with
  | none => simp [optEstimateCmp]
  | some s => simp [optEstimateCmp, stringPartialCmp, strCmp, listNatCmp_self]

/-- Totality of the sort relation. -/
theorem estLeProp_total (a b : Task) : estLeProp a b ∨ estLeProp b a := by
  unfold estLeProp
  rw [estimateLe_eq_true_iff, estimateLe_eq_true_iff]
  cases ha : a.estimate with
  | none =>
    left
    cases hb : b.estimate <;> simp [optEstimateCmp]
  | some sa =>
    cases hb : b.estimate with
    | none => right; simp [optEstimateCmp]
    | some sb =>
      simp only [optEstimateCmp, stringPartialCmp, Option.getD_some, strCmp]
      rcases h : listNatCmp (sa.data.map Char.toNat) (sb.data.map Char.toNat)
        with _ | _ | _
      · left; simp
      · left; simp
      · right
        rw [← listNatCmp_swap, h]
        simp [Ordering.swap]

/-- Transitivity of the sort relation. -/
theorem estLeProp_trans (a b c : Task) (h1 : estLeProp a b) (h2 : estLeProp b c) :
    estLeProp a c := by
  unfold estLeProp at h1 h2 ⊢
  rw [estimateLe_eq_true_iff] at h1 h2 ⊢
  cases ha : a.estimate with
  | none => cases hc : c.estimate <;> simp [optEstimateCmp]
  | some sa =>
    rw [ha] at h1
    cases hb : b.estimate with
    | none =>
      rw [hb] at h1
      simp [optEstimateCmp] at h1
    | some sb =>
      rw [hb] at h1 h2
      cases hc : c.estimate with
      | none =>
        rw [hc] at h2
        simp [optEstimateCmp] at h2
      | some sc =>
        rw [hc] at h2
        simp only [optEstimateCmp, stringPartialCmp, Option.getD_some, strCmp] at h1 h2 ⊢
        exact listNatCmp_ne_gt_trans _ _ _ h1 h2

/-- A task without an estimate can only be preceded (in the sort relation)
by tasks without an estimate. -/
theorem estimate_none_of_le_none (a b : Task) (h : estLeProp a b) (hb : b.estimate = none) :
    a.estimate = none := by
  rcases ha : a.estimate with _ | s
  · rfl
  · exfalso
    unfold estLeProp at h
    rw [estimateLe_eq_true_iff, ha, hb] at h
    simp [optEstimateCmp] at h

/-! List-surgery lemmas for the Shift-mode reordering. -/

/-- Swapping two shifted indices under a common head. -/
theorem swapOpt_cons_succ (x : Task) (l : List Task) (i j : Nat) :
    swapOpt (x :: l) (i + 1) (j + 1) = (swapOpt l i j).map (fun l2 => x :: l2) := by
  unfold swapOpt
  simp only [List.getElem?_cons_succ]
  cases l[i]? <;> cases l[j]? <;> simp

/-- An upward adjacent swap moves an inserted element one position to the
left. -/
theorem swapOpt_insertIdx_up :
    ∀ (s : Nat) (m : List Task), 0 < s → s ≤ m.length → ∀ t,
      swapOpt (List.insertIdx s t m) s (s - 1) = some (List.insertIdx (s - 1) t m)
  | 0, _, h0, _, _ => absurd h0 (by omega)
  | _ + 1, [], _, hs, _ => absurd hs (by simp)
  | 1, x :: m2, _, _, t => by
    simp [swapOpt, List.insertIdx_succ_cons]
  | s2 + 2, x :: m2, _, hs, t => by
    have ih := swapOpt_insertIdx_up (s2 + 1) m2 (by omega) (by simpa using hs) t
    simp only [Nat.add_sub_cancel] at ih
    show swapOpt (List.insertIdx (s2 + 2) t (x :: m2)) (s2 + 2) (s2 + 1) =
      some (List.insertIdx (s2 + 1) t (x :: m2))
    rw [List.insertIdx_succ_cons, List.insertIdx_succ_cons, swapOpt_cons_succ, ih]
    rfl

/-- A downward adjacent swap moves an inserted element one position to the
right. -/
theorem swapOpt_insertIdx_down :
    ∀ (s : Nat) (m : List Task), s < m.length → ∀ t,
      swapOpt (List.insertIdx s t m) s (s + 1) = some (List.insertIdx (s + 1) t m)
  | _, [], hs, _ => absurd hs (by simp)
  | 0, x :: m2, _, t => by
    simp [swapOpt, List.insertIdx_succ_cons]
  | s2 + 1, x :: m2, hs, t => by
    have ih := swapOpt_insertIdx_down s2 m2 (by simpa using hs) t
    rw [List.insertIdx_succ_cons, List.insertIdx_succ_cons, swapOpt_cons_succ, ih]
    rfl

/-- Removing an element and re-inserting it at the same position restores
the list. -/
theorem insertIdx_get_eraseIdx :
    ∀ (l : List Task) (p : Nat) (h : p < l.length),
      List.insertIdx p (l.get ⟨p, h⟩) (l.eraseIdx p) = l
  | [], p, h => absurd h (by simp)
  | x :: xs, 0, _ => rfl
  | x :: xs, p + 1, h => by
    have ih := insertIdx_get_eraseIdx xs p (by simpa using h)
    simp only [List.eraseIdx_cons_succ, List.insertIdx_succ_cons]
    exact congrArg (List.cons x) ih

/-- Wrapping decrement agrees with truncated subtraction on realistic
(positive, representable) lengths. -/
theorem usizeSub1_of_pos (n : Nat) (h1 : 0 < n) (h2 : n < USIZE_BOUND) :
    usizeSub1 n = n - 1 := by
  unfold usizeSub1 USIZE_BOUND at *
  omega

/-! Behaviour of `Shift::update` on the individual key arms. -/

/-- Shift up with a positive cursor: swap with the predecessor. -/
theorem shiftUpdate_up_swap (op s : Nat) (ts ts2 : List Task) (c : List (String × String))
    (h0 : 0 < s) (hswap : swapOpt ts s (s - 1) = some ts2) :
    shiftUpdate op { list_state := { selected := some s }, tasks := ts, tasks_contents := c }
      Key.up =
      some ({ list_state := { selected := some (s - 1) }, tasks := ts2, tasks_contents := c },
            noAction) := by
  unfold shiftUpdate
  simp [CommonState.selected, h0, hswap]

/-- Shift up with the cursor at 0: no-op. -/
theorem shiftUpdate_up_noop (op : Nat) (cs : CommonState) (h0 : cs.selected = 0) :
    shiftUpdate op cs Key.up = some (cs, noAction) := by
  unfold shiftUpdate
  simp [h0]

/-- Shift down under the length guard: swap with the successor. -/
theorem shiftUpdate_down_swap (op s : Nat) (ts ts2 : List Task) (c : List (String × String))
    (hlt : s < usizeSub1 ts.length) (hswap : swapOpt ts s (s + 1) = some ts2) :
    shiftUpdate op { list_state := { selected := some s }, tasks := ts, tasks_contents := c }
      Key.down =
      some ({ list_state := { selected := some (s + 1) }, tasks := ts2, tasks_contents := c },
            noAction) := by
  unfold shiftUpdate
  simp [CommonState.selected, hlt, hswap]

/-- Shift down when the length guard fails: no-op. -/
theorem shiftUpdate_down_noop (op : Nat) (cs : CommonState)
    (h : ¬ cs.selected < usizeSub1 cs.tasks.length) :
    shiftUpdate op cs Key.down = some (cs, noAction) := by
  unfold shiftUpdate
  simp [h]

/-- The undo arm of `Shift::update` (esc or ctrl-f): remove the selected
task, re-insert it at the remembered original position, move the cursor
there, and return to Normal without a flush. -/
theorem shiftUpdate_escape (op : Nat) (cs : CommonState) (k : Key)
    (hk : k = Key.esc ∨ k = Key.ctrl 'f')
    (hsel : cs.selected < cs.tasks.length) (hop : op ≤ cs.tasks.length - 1) :
    shiftUpdate op cs k = some
      ({ cs with tasks := List.insertIdx op (cs.tasks.get ⟨cs.selected, hsel⟩)
                   (cs.tasks.eraseIdx cs.selected),
                 list_state := { selected := some op } },
       { new_mode := some ModeT.normal, should_load := false, should_flush := false }) := by
  have hlen : (cs.tasks.eraseIdx cs.selected).length = cs.tasks.length - 1 := by
    rw [List.length_eraseIdx]
    simp [hsel]
  have hget : cs.tasks[cs.selected]? = some (cs.tasks.get ⟨cs.selected, hsel⟩) := by
    rw [List.getElem?_eq_getElem hsel]
    simp
  unfold shiftUpdate
  rcases hk with hk | hk <;> subst hk <;>
    simp [hget, hlen, hop]

/-- One step of `applyShiftKeys` when the update succeeds. -/
theorem applyShiftKeys_cons_some (op : Nat) (cs cs2 : CommonState) (r : ActionResult)
    (k : Key) (ks : List Key) (h : shiftUpdate op cs k = some (cs2, r)) :
    applyShiftKeys op cs (k :: ks) = applyShiftKeys op cs2 ks := by
  rw [applyShiftKeys, h]

/-- After any sequence of Shift-mode swap keys, the snapshot is the
pre-Shift list with the tracked task moved to the cursor position: the
state is `insertIdx s2 t m` with cursor `s2`, for the fixed remainder `m`
and tracked task `t`. -/
theorem applyShiftKeys_swaps (p : Nat) (m : List Task) (t : Task)
    (c : List (String × String)) (hm : m.length + 1 < USIZE_BOUND) :
    ∀ (ds : List SwapKey) (s : Nat), s ≤ m.length →
      ∃ s2, s2 ≤ m.length ∧
        applyShiftKeys p
          { list_state := { selected := some s }, tasks := List.insertIdx s t m,
            tasks_contents := c } (ds.map SwapKey.toKey) =
          some { list_state := { selected := some s2 }, tasks := List.insertIdx s2 t m,
                 tasks_contents := c } := by
  intro ds
  induction ds with
  | nil => intro s hs; exact ⟨s, hs, rfl⟩
  | cons d ds ih =>
    intro s hs
    cases d
    case up =>
      rcases Nat.eq_zero_or_pos s with h0 | h0
      · subst h0
        obtain ⟨s2, hs2, hrun⟩ := ih 0 hs
        refine ⟨s2, hs2, ?_⟩
        have step := shiftUpdate_up_noop p
          { list_state := { selected := some 0 }, tasks := List.insertIdx 0 t m,
            tasks_contents := c } rfl
        rw [List.map_cons]
        simp only [SwapKey.toKey]
        rw [applyShiftKeys_cons_some _ _ _ _ _ _ step]
        exact hrun
      · obtain ⟨s2, hs2, hrun⟩ := ih (s - 1) (by omega)
        refine ⟨s2, hs2, ?_⟩
        have step := shiftUpdate_up_swap p s (List.insertIdx s t m)
          (List.insertIdx (s - 1) t m) c h0 (swapOpt_insertIdx_up s m h0 hs t)
        rw [List.map_cons]
        simp only [SwapKey.toKey]
        rw [applyShiftKeys_cons_some _ _ _ _ _ _ step]
        exact hrun
    case down =>
      have hlen : (List.insertIdx s t m).length = m.length + 1 :=
        List.length_insertIdx s m hs
      by_cases hlt : s < m.length
      · obtain ⟨s2, hs2, hrun⟩ := ih (s + 1) (by omega)
        refine ⟨s2, hs2, ?_⟩
        have hguard : s < usizeSub1 (List.insertIdx s t m).length := by
          rw [hlen, usizeSub1_of_pos (m.length + 1) (by omega) hm]
          omega
        have step := shiftUpdate_down_swap p s (List.insertIdx s t m)
          (List.insertIdx (s + 1) t m) c hguard (swapOpt_insertIdx_down s m hlt t)
        rw [List.map_cons]
        simp only [SwapKey.toKey]
        rw [applyShiftKeys_cons_some _ _ _ _ _ _ step]
        exact hrun
      · obtain ⟨s2, hs2, hrun⟩ := ih s hs
        refine ⟨s2, hs2, ?_⟩
        have hguard : ¬ (CommonState.selected
            { list_state := { selected := some s }, tasks := List.insertIdx s t m,
              tasks_contents := c } <
            usizeSub1 (List.insertIdx s t m).length) := by
          simp only [CommonState.selected, Option.getD_some]
          rw [hlen, usizeSub1_of_pos (m.length + 1) (by omega) hm]
          omega
        have step := shiftUpdate_down_noop p
          { list_state := { selected := some s }, tasks := List.insertIdx s t m,
            tasks_contents := c } hguard
        rw [List.map_cons]
        simp only [SwapKey.toKey]
        rw [applyShiftKeys_cons_some _ _ _ _ _ _ step]
        exact hrun

/-- Keys outside the extended Normal-mode table leave `Normal::update` at
its default arm. -/
theorem normalUpdate_unlisted (cs : CommonState) (k : Key)
    (h : listedKey ModeT.normal k = false) :
    normalUpdate cs k = some (cs, noAction) := by
  simp only [listedKey, List.contains_cons, List.contains_nil, Bool.or_eq_false_iff,
    beq_eq_false_iff_ne, ne_eq] at h
  obtain ⟨hq, hesc, hcc, hup, hdn, hk, hK, hj, hJ, hg, hG, hs, hd, hX⟩ := h
  unfold normalUpdate
  simp [hup, hdn, hk, hK, hj, hJ, hg, hG, hs, hd, hX]

/-- Keys outside the extended Shift-mode table leave `Shift::update` at its
default arm. -/
theorem shiftUpdate_unlisted (op : Nat) (cs : CommonState) (k : Key)
    (h : listedKey (ModeT.shift op) k = false) :
    shiftUpdate op cs k = some (cs, noAction) := by
  simp only [listedKey, List.contains_cons, List.contains_nil, Bool.or_eq_false_iff,
    beq_eq_false_iff_ne, ne_eq] at h
  obtain ⟨hq, hesc, hcc, hup, hdn, hk, hK, hj, hJ, hnl, hs, hcf⟩ := h
  unfold shiftUpdate
  simp [hup, hdn, hk, hK, hj, hJ, hnl, hs, hesc, hcf]

/-- Keys outside the Done-mode table leave `Done::update` at its default
arm. -/
theorem doneUpdate_unlisted (cs : CommonState) (k : Key)
    (h : listedKey ModeT.done k = false) :
    doneUpdate cs k = some (cs, noAction) := by
  simp only [listedKey, List.contains_cons, List.contains_nil, Bool.or_eq_false_iff,
    beq_eq_false_iff_ne, ne_eq] at h
  obtain ⟨hq, hesc, hcc, hnl, hcf⟩ := h
  unfold doneUpdate
  simp [hesc, hcf, hnl]

/-! Invariant lemmas for the session state machine. -/

theorem normalUpdate_spec (cs : CommonState) (k : Key) (cs2 : CommonState) (r : ActionResult)
    (hB : cs.tasks.length < USIZE_BOUND)
    (hv : cs.tasks ≠ [] → ∃ i, cs.list_state.selected = some i ∧ i < cs.tasks.length)
    (h : normalUpdate cs k = some (cs2, r)) :
    cs2.tasks = cs.tasks ∧ cs2.tasks_contents = cs.tasks_contents ∧
    r.should_flush = false ∧ r.should_load = false ∧
    (cs2.tasks ≠ [] → ∃ i, cs2.list_state.selected = some i ∧ i < cs2.tasks.length) ∧
    (∀ op2, r.new_mode = some (ModeT.shift op2) → cs.tasks ≠ [] →
      op2 < cs.tasks.length) := by
  unfold normalUpdate at h
  by_cases h1 : k = Key.up ∨ k = Key.char 'k' ∨ k = Key.char 'K'
  · rw [if_pos h1] at h
    simp only [Option.some.injEq, Prod.mk.injEq] at h
    obtain ⟨hcs, hr⟩ := h
    subst hcs
    subst hr
    by_cases hg : cs.selected > 0
    · rw [if_pos hg]
      refine ⟨rfl, rfl, rfl, rfl, ?_, ?_⟩
      · intro hne
        obtain ⟨i, hi, hlt⟩ := hv hne
        have hsi : cs.selected = i := by simp [CommonState.selected, hi]
        exact ⟨cs.selected - 1, rfl, show cs.selected - 1 < cs.tasks.length by omega⟩
      · intro op2 hm
        simp [noAction] at hm
    · rw [if_neg hg]
      exact ⟨rfl, rfl, rfl, rfl, hv, by intro op2 hm; simp [noAction] at hm⟩
  · rw [if_neg h1] at h
    by_cases h2 : k = Key.down ∨ k = Key.char 'j' ∨ k = Key.char 'J'
    · rw [if_pos h2] at h
      simp only [Option.some.injEq, Prod.mk.injEq] at h
      obtain ⟨hcs, hr⟩ := h
      subst hcs
      subst hr
      by_cases hg : cs.selected < usizeSub1 cs.tasks.length
      · rw [if_pos hg]
        refine ⟨rfl, rfl, rfl, rfl, ?_, ?_⟩
        · intro hne
          obtain ⟨i, hi, hlt⟩ := hv hne
          have hsi : cs.selected = i := by simp [CommonState.selected, hi]
          have hpos : 0 < cs.tasks.length := by omega
          rw [usizeSub1_of_pos cs.tasks.length hpos hB] at hg
          exact ⟨cs.selected + 1, rfl, show cs.selected + 1 < cs.tasks.length by omega⟩
        · intro op2 hm
          simp [noAction] at hm
      · rw [if_neg hg]
        exact ⟨rfl, rfl, rfl, rfl, hv, by intro op2 hm; simp [noAction] at hm⟩
    · rw [if_neg h2] at h
      by_cases h3 : k = Key.char 'g'
      · rw [if_pos h3] at h
        simp only [Option.some.injEq, Prod.mk.injEq] at h
        obtain ⟨hcs, hr⟩ := h
        subst hcs
        subst hr
        refine ⟨rfl, rfl, rfl, rfl, ?_, ?_⟩
        · intro hne
          exact ⟨0, rfl, show 0 < cs.tasks.length from List.length_pos.mpr hne⟩
        · intro op2 hm
          simp [noAction] at hm
      · rw [if_neg h3] at h
        by_cases h4 : k = Key.char 'G'
        · rw [if_pos h4] at h
          simp only [Option.some.injEq, Prod.mk.injEq] at h
          obtain ⟨hcs, hr⟩ := h
          subst hcs
          subst hr
          refine ⟨rfl, rfl, rfl, rfl, ?_, ?_⟩
          · intro hne
            have hpos : 0 < cs.tasks.length := List.length_pos.mpr hne
            rw [usizeSub1_of_pos cs.tasks.length hpos hB]
            exact ⟨cs.tasks.length - 1, rfl,
              show cs.tasks.length - 1 < cs.tasks.length by omega⟩
          · intro op2 hm
            simp [noAction] at hm
        · rw [if_neg h4] at h
          by_cases h5 : k = Key.char 'd'
          · rw [if_pos h5] at h
            simp only [Option.some.injEq, Prod.mk.injEq] at h
            obtain ⟨hcs, hr⟩ := h
            subst hcs
            subst hr
            exact ⟨rfl, rfl, rfl, rfl, hv, by intro op2 hm; simp at hm⟩
          · rw [if_neg h5] at h
            by_cases h6 : k = Key.char 's'
            · rw [if_pos h6] at h
              simp only [Option.some.injEq, Prod.mk.injEq] at h
              obtain ⟨hcs, hr⟩ := h
              subst hcs
              subst hr
              refine ⟨rfl, rfl, rfl, rfl, hv, ?_⟩
              intro op2 hm hne
              simp only [Option.some.injEq, ModeT.shift.injEq] at hm
              obtain ⟨i, hi, hlt⟩ := hv hne
              have hsi : cs.selected = i := by simp [CommonState.selected, hi]
              omega
            · rw [if_neg h6] at h
              by_cases h7 : k = Key.char 'X'
              · rw [if_pos h7] at h
                by_cases hg : cs.selected < cs.tasks.length
                · rw [if_pos hg] at h
                  simp only [Option.some.injEq, Prod.mk.injEq] at h
                  obtain ⟨hcs, hr⟩ := h
                  subst hcs
                  subst hr
                  exact ⟨rfl, rfl, rfl, rfl, hv, by intro op2 hm; simp [noAction] at hm⟩
                · rw [if_neg hg] at h
                  exact absurd h (by simp)
              · rw [if_neg h7] at h
                simp only [Option.some.injEq, Prod.mk.injEq] at h
                obtain ⟨hcs, hr⟩ := h
                subst hcs
                subst hr
                exact ⟨rfl, rfl, rfl, rfl, hv, by intro op2 hm; simp [noAction] at hm⟩

theorem swapOpt_length (l ts : List Task) (i j : Nat) (h : swapOpt l i j = some ts) :
    ts.length = l.length := by
  unfold swapOpt at h
  cases hi : l[i]? <;> rw [hi] at h
  · simp at h
  · cases hj : l[j]? <;> rw [hj] at h
    · simp at h
    · simp only [Option.some.injEq] at h
      rw [← h]
      simp

theorem shiftUpdate_spec (op : Nat) (cs : CommonState) (k : Key) (cs2 : CommonState)
    (r : ActionResult)
    (hB : cs.tasks.length < USIZE_BOUND)
    (hv : cs.tasks ≠ [] → ∃ i, cs.list_state.selected = some i ∧ i < cs.tasks.length)
    (h : shiftUpdate op cs k = some (cs2, r)) :
    cs2.tasks.length = cs.tasks.length ∧
    r.should_load = false ∧
    (r.should_flush = true → r.new_mode = some ModeT.normal) ∧
    (cs2.tasks ≠ [] → ∃ i, cs2.list_state.selected = some i ∧ i < cs2.tasks.length) ∧
    (r.new_mode = none ∨ r.new_mode = some ModeT.normal) := by
  unfold shiftUpdate at h
  by_cases h1 : k = Key.up ∨ k = Key.char 'k' ∨ k = Key.char 'K'
  · rw [if_pos h1] at h
    by_cases hg : cs.selected > 0
    · rw [if_pos hg] at h
      cases hsw : swapOpt cs.tasks cs.selected (cs.selected - 1) with
      | none => rw [hsw] at h; simp at h
      | some ts =>
        rw [hsw] at h
        simp only [Option.some.injEq, Prod.mk.injEq] at h
        obtain ⟨hcs, hr⟩ := h
        subst hcs
        subst hr
        have hlen := swapOpt_length _ _ _ _ hsw
        refine ⟨hlen, rfl, by intro hx; simp [noAction] at hx, ?_, Or.inl rfl⟩
        intro hne
        have hpos : 0 < ts.length := List.length_pos.mpr hne
        have hne2 : cs.tasks ≠ [] := List.length_pos.mp (by omega)
        obtain ⟨i, hi, hlt⟩ := hv hne2
        have hsi : cs.selected = i := by simp [CommonState.selected, hi]
        exact ⟨cs.selected - 1, rfl, show cs.selected - 1 < ts.length by omega⟩
    · rw [if_neg hg] at h
      simp only [Option.some.injEq, Prod.mk.injEq] at h
      obtain ⟨hcs, hr⟩ := h
      subst hcs
      subst hr
      exact ⟨rfl, rfl, by intro hx; simp [noAction] at hx, hv, Or.inl rfl⟩
  · rw [if_neg h1] at h
    by_cases h2 : k = Key.down ∨ k = Key.char 'j' ∨ k = Key.char 'J'
    · rw [if_pos h2] at h
      by_cases hg : cs.selected < usizeSub1 cs.tasks.length
      · rw [if_pos hg] at h
        cases hsw : swapOpt cs.tasks cs.selected (cs.selected + 1) with
        | none => rw [hsw] at h; simp at h
        | some ts =>
          rw [hsw] at h
          simp only [Option.some.injEq, Prod.mk.injEq] at h
          obtain ⟨hcs, hr⟩ := h
          subst hcs
          subst hr
          have hlen := swapOpt_length _ _ _ _ hsw
          refine ⟨hlen, rfl, by intro hx; simp [noAction] at hx, ?_, Or.inl rfl⟩
          intro hne
          have hpos : 0 < ts.length := List.length_pos.mpr hne
          have hposl : 0 < cs.tasks.length := by omega
          rw [usizeSub1_of_pos cs.tasks.length hposl hB] at hg
          exact ⟨cs.selected + 1, rfl, show cs.selected + 1 < ts.length by omega⟩
      · rw [if_neg hg] at h
        simp only [Option.some.injEq, Prod.mk.injEq] at h
        obtain ⟨hcs, hr⟩ := h
        subst hcs
        subst hr
        exact ⟨rfl, rfl, by intro hx; simp [noAction] at hx, hv, Or.inl rfl⟩
    · rw [if_neg h2] at h
      by_cases h3 : k = Key.char '\n' ∨ k = Key.char 's'
      · rw [if_pos h3] at h
        simp only [Option.some.injEq, Prod.mk.injEq] at h
        obtain ⟨hcs, hr⟩ := h
        subst hcs
        subst hr
        exact ⟨rfl, rfl, fun _ => rfl, hv, Or.inr rfl⟩
      · rw [if_neg h3] at h
        by_cases h4 : k = Key.esc ∨ k = Key.ctrl 'f'
        · rw [if_pos h4] at h
          simp only [] at h
          cases hidx : cs.tasks[cs.selected]? with
          | none => rw [hidx] at h; simp at h
          | some task =>
            rw [hidx] at h
            simp only [] at h
            obtain ⟨hlt, _⟩ := List.getElem?_eq_some_iff.mp hidx
            by_cases hop2 : op ≤ (cs.tasks.eraseIdx cs.selected).length
            · rw [if_pos hop2] at h
              simp only [Option.some.injEq, Prod.mk.injEq] at h
              obtain ⟨hcs, hr⟩ := h
              subst hcs
              subst hr
              have hel : (cs.tasks.eraseIdx cs.selected).length = cs.tasks.length - 1 := by
                rw [List.length_eraseIdx]
                simp [hlt]
              have hil : (List.insertIdx op task (cs.tasks.eraseIdx cs.selected)).length =
                  (cs.tasks.eraseIdx cs.selected).length + 1 :=
                List.length_insertIdx op (cs.tasks.eraseIdx cs.selected) hop2
              have htot : (List.insertIdx op task (cs.tasks.eraseIdx cs.selected)).length =
                  cs.tasks.length := by omega
              refine ⟨htot, rfl, by intro hx; simp at hx, ?_, Or.inr rfl⟩
              intro hne
              exact ⟨op, rfl, show op <
                (List.insertIdx op task (cs.tasks.eraseIdx cs.selected)).length by omega⟩
            · rw [if_neg hop2] at h
              simp at h
        · rw [if_neg h4] at h
          simp only [Option.some.injEq, Prod.mk.injEq] at h
          obtain ⟨hcs, hr⟩ := h
          subst hcs
          subst hr
          exact ⟨rfl, rfl, by intro hx; simp [noAction] at hx, hv, Or.inl rfl⟩

theorem doneUpdate_spec (cs : CommonState) (k : Key) (cs2 : CommonState) (r : ActionResult)
    (h : doneUpdate cs k = some (cs2, r)) :
    cs2.tasks.length = cs.tasks.length ∧ cs2.list_state = cs.list_state ∧
    r.should_load = false ∧
    (r.should_flush = true → r.new_mode = some ModeT.normal) ∧
    (r.new_mode = none ∨ r.new_mode = some ModeT.normal) := by
  unfold doneUpdate at h
  by_cases h1 : k = Key.esc ∨ k = Key.ctrl 'f'
  · rw [if_pos h1] at h
    simp only [Option.some.injEq, Prod.mk.injEq] at h
    obtain ⟨hcs, hr⟩ := h
    subst hcs
    subst hr
    exact ⟨rfl, rfl, rfl, fun _ => rfl, Or.inr rfl⟩
  · rw [if_neg h1] at h
    by_cases h2 : k = Key.char '\n'
    · rw [if_pos h2] at h
      simp only [] at h
      cases hidx : cs.tasks[cs.selected]? with
      | none => rw [hidx] at h; simp at h
      | some t =>
        rw [hidx] at h
        simp only [] at h
        simp only [Option.some.injEq, Prod.mk.injEq] at h
        obtain ⟨hcs, hr⟩ := h
        subst hcs
        subst hr
        exact ⟨by simp, rfl, rfl, fun _ => rfl, Or.inr rfl⟩
    · rw [if_neg h2] at h
      simp only [Option.some.injEq, Prod.mk.injEq] at h
      obtain ⟨hcs, hr⟩ := h
      subst hcs
      subst hr
      exact ⟨rfl, rfl, rfl, by intro hx; simp [noAction] at hx, Or.inl rfl⟩

theorem length_fetchTasks_le (opt : Opt) (store : List Task) :
    (fetchTasks opt store).length ≤ store.length :=
  List.length_filter_le _ _

theorem length_sortTasks (l : List Task) : (sortTasks l).length = l.length :=
  List.length_insertionSort estLeProp l

theorem load_tasks_length_le (opt : Opt) (notes : String → String) (store : List Task) :
    (load_from_taskwarrior opt notes store).tasks.length ≤ store.length := by
  show (sortTasks (fetchTasks opt store)).length ≤ store.length
  rw [length_sortTasks]
  exact length_fetchTasks_le opt store

theorem load_selected_of_ne_nil (opt : Opt) (notes : String → String) (store : List Task)
    (h : (load_from_taskwarrior opt notes store).tasks ≠ []) :
    (load_from_taskwarrior opt notes store).list_state.selected = some 0 := by
  show (if (sortTasks (fetchTasks opt store)).isEmpty then none else some 0) = some 0
  rw [if_neg]
  intro he
  exact h (by simpa using he)

theorem load_inv (opt : Opt) (notes : String → String) (store : List Task) :
    (load_from_taskwarrior opt notes store).tasks ≠ [] →
      ∃ i, (load_from_taskwarrior opt notes store).list_state.selected = some i ∧
        i < (load_from_taskwarrior opt notes store).tasks.length := by
  intro h
  exact ⟨0, load_selected_of_ne_nil opt notes store h, List.length_pos.mpr h⟩

theorem length_save (t : Task) (store : List Task) :
    (Task.save t store).length = store.length := by
  unfold Task.save
  simp

theorem length_foldl_save : ∀ (ts : List Task) (store : List Task),
    (ts.foldl (fun st t => Task.save t st) store).length = store.length
  | [], _ => rfl
  | t :: ts, store => by
    rw [List.foldl_cons, length_foldl_save ts (Task.save t store), length_save]

theorem length_flushStore (tasks store : List Task) :
    (flushStore tasks store).length = store.length := by
  unfold flushStore
  exact length_foldl_save _ store

theorem flush_inv (opt : Opt) (notes : String → String) (cs : CommonState)
    (store : List Task) (hB : store.length < USIZE_BOUND) :
    ((flush_to_taskwarrior opt notes cs store).2.length = store.length) ∧
    ((flush_to_taskwarrior opt notes cs store).1.tasks.length ≤ store.length) ∧
    ((flush_to_taskwarrior opt notes cs store).1.tasks ≠ [] →
      ∃ i, (flush_to_taskwarrior opt notes cs store).1.list_state.selected = some i ∧
        i < (flush_to_taskwarrior opt notes cs store).1.tasks.length) := by
  have hst : (flushStore cs.tasks store).length = store.length := length_flushStore _ _
  have hle : (load_from_taskwarrior opt notes (flushStore cs.tasks store)).tasks.length ≤
      store.length :=
    le_trans (load_tasks_length_le _ _ _) (le_of_eq hst)
  by_cases hc : (load_from_taskwarrior opt notes (flushStore cs.tasks store)).tasks.length ≤
      cs.selected
  · simp only [flush_to_taskwarrior, hc, if_pos]
    refine ⟨hst, hle, ?_⟩
    intro hne
    have hpos :
        0 < (load_from_taskwarrior opt notes (flushStore cs.tasks store)).tasks.length :=
      List.length_pos.mpr hne
    rw [usizeSub1_of_pos _ hpos (by omega)]
    exact ⟨_, rfl, by omega⟩
  · simp only [flush_to_taskwarrior, hc, if_neg, if_false]
    exact ⟨hst, hle, fun hne => ⟨cs.selected, rfl, by omega⟩⟩

theorem stepKey_inv (opt : Opt) (notes : String → String) (st : SessState) (k : Key)
    (st2 : SessState) (hinv : SessInv st) (hstep : stepKey opt notes st k = some st2) :
    SessInv st2 := by
  obtain ⟨hb1, hb2, hv, hsh⟩ := hinv
  unfold stepKey at hstep
  by_cases hq : st.quit
  · rw [if_pos hq] at hstep
    simp only [Option.some.injEq] at hstep
    exact hstep ▸ ⟨hb1, hb2, hv, hsh⟩
  · rw [if_neg hq] at hstep
    by_cases hg : k = Key.char 'q' ∨ k = Key.esc ∨ k = Key.ctrl 'c'
    · rw [if_pos hg] at hstep
      simp only [Option.some.injEq] at hstep
      exact hstep ▸ ⟨hb1, hb2, hv, hsh⟩
    · rw [if_neg hg] at hstep
      rcases hmode : st.mode with _ | op | _
      · -- Normal mode
        rw [hmode] at hstep
        simp only [modeUpdate] at hstep
        cases hu : normalUpdate st.cs k with
        | none => rw [hu] at hstep; simp at hstep
        | some p =>
          obtain ⟨cs2, r⟩ := p
          rw [hu] at hstep
          simp only [] at hstep
          obtain ⟨hct, hcc, hfl, hld, hval, hmsh⟩ :=
            normalUpdate_spec st.cs k cs2 r hb2 hv hu
          rw [hfl, hld] at hstep
          simp only [Bool.false_eq_true, if_false] at hstep
          simp only [Option.some.injEq] at hstep
          refine hstep ▸ ⟨hb1, ?_, hval, ?_⟩
          · show cs2.tasks.length < USIZE_BOUND
            rw [hct]
            exact hb2
          · intro op2 hm2 hne
            show op2 < cs2.tasks.length
            rw [hct]
            rw [hct] at hne
            cases hn : r.new_mode with
            | none =>
              rw [hn] at hm2
              simp at hm2
            | some v =>
              rw [hn] at hm2
              simp only [Option.getD_some] at hm2
              exact hmsh op2 (by rw [hn, hm2]) hne
      · -- Shift mode
        rw [hmode] at hstep
        simp only [modeUpdate] at hstep
        cases hu : shiftUpdate op st.cs k with
        | none => rw [hu] at hstep; simp at hstep
        | some p =>
          obtain ⟨cs2, r⟩ := p
          rw [hu] at hstep
          simp only [] at hstep
          obtain ⟨hct, hld, hfn, hval, hmn⟩ :=
            shiftUpdate_spec op st.cs k cs2 r hb2 hv hu
          cases hrf : r.should_flush with
          | true =>
            rw [hrf] at hstep
            simp only [if_true] at hstep
            simp only [Option.some.injEq] at hstep
            obtain ⟨hf1, hf2, hf3⟩ := flush_inv opt notes cs2 st.store hb1
            refine hstep ▸ ⟨?_, ?_, hf3, ?_⟩
            · show (flush_to_taskwarrior opt notes cs2 st.store).2.length < USIZE_BOUND
              omega
            · show (flush_to_taskwarrior opt notes cs2 st.store).1.tasks.length < USIZE_BOUND
              omega
            · intro op2 hm2
              rw [hfn hrf] at hm2
              simp at hm2
          | false =>
            rw [hrf] at hstep
            rw [hld] at hstep
            simp only [Bool.false_eq_true, if_false] at hstep
            simp only [Option.some.injEq] at hstep
            refine hstep ▸ ⟨hb1, ?_, hval, ?_⟩
            · show cs2.tasks.length < USIZE_BOUND
              rw [hct]
              exact hb2
            · intro op2 hm2 hne
              show op2 < cs2.tasks.length
              cases hn : r.new_mode with
              | none =>
                rw [hn] at hm2
                simp only [Option.getD_none] at hm2
                have hop2 : op2 = op := by
                  cases hm2
                  rfl
                have hne0 : st.cs.tasks ≠ [] := by
                  have : 0 < cs2.tasks.length := List.length_pos.mpr hne
                  exact List.length_pos.mp (by omega)
                rw [hop2, hct]
                exact hsh op hmode hne0
              | some v =>
                rw [hn] at hm2
                simp only [Option.getD_some] at hm2
                rcases hmn with hmn | hmn
                · rw [hn] at hmn
                  exact absurd hmn (by simp)
                · rw [hn] at hmn
                  simp only [Option.some.injEq] at hmn
                  rw [hmn] at hm2
                  exact absurd hm2 (by simp)
      · -- Done mode
        rw [hmode] at hstep
        simp only [modeUpdate] at hstep
        cases hu : doneUpdate st.cs k with
        | none => rw [hu] at hstep; simp at hstep
        | some p =>
          obtain ⟨cs2, r⟩ := p
          rw [hu] at hstep
          simp only [] at hstep
          obtain ⟨hct, hls, hld, hfn, hmn⟩ := doneUpdate_spec st.cs k cs2 r hu
          cases hrf : r.should_flush with
          | true =>
            rw [hrf] at hstep
            simp only [if_true] at hstep
            simp only [Option.some.injEq] at hstep
            obtain ⟨hf1, hf2, hf3⟩ := flush_inv opt notes cs2 st.store hb1
            refine hstep ▸ ⟨?_, ?_, hf3, ?_⟩
            · show (flush_to_taskwarrior opt notes cs2 st.store).2.length < USIZE_BOUND
              omega
            · show (flush_to_taskwarrior opt notes cs2 st.store).1.tasks.length < USIZE_BOUND
              omega
            · intro op2 hm2
              rw [hfn hrf] at hm2
              simp at hm2
          | false =>
            rw [hrf] at hstep
            rw [hld] at hstep
            simp only [Bool.false_eq_true, if_false] at hstep
            simp only [Option.some.injEq] at hstep
            refine hstep ▸ ⟨hb1, ?_, ?_, ?_⟩
            · show cs2.tasks.length < USIZE_BOUND
              rw [hct]
              exact hb2
            · intro hne
              have hne0 : st.cs.tasks ≠ [] := by
                have : 0 < cs2.tasks.length := List.length_pos.mpr hne
                exact List.length_pos.mp (by omega)
              obtain ⟨i, hi, hlt⟩ := hv hne0
              refine ⟨i, ?_, ?_⟩
              · show cs2.list_state.selected = some i
                rw [hls]
                exact hi
              · show i < cs2.tasks.length
                omega
            · intro op2 hm2 hne
              rcases hmn with hmn | hmn
              · rw [hmn] at hm2
                simp only [Option.getD_none] at hm2
                exact absurd hm2 (by simp)
              · rw [hmn] at hm2
                simp only [Option.getD_some] at hm2
                exact absurd hm2 (by simp)

theorem runKeys_inv (opt : Opt) (notes : String → String) :
    ∀ (ks : List Key) (st st2 : SessState), SessInv st →
      runKeys opt notes st ks = some st2 → SessInv st2
  | [], st, st2, hinv, h => by
    simp only [runKeys, Option.some.injEq] at h
    exact h ▸ hinv
  | k :: ks, st, st2, hinv, h => by
    rw [runKeys] at h
    cases hs : stepKey opt notes st k with
    | none => rw [hs] at h; simp at h
    | some stm =>
      rw [hs] at h
      simp only [] at h
      exact runKeys_inv opt notes ks stm st2 (stepKey_inv opt notes st k stm hinv hs) h

theorem initSession_inv (opt : Opt) (notes : String → String) (store : List Task)
    (hB : store.length < USIZE_BOUND) : SessInv (initSession opt notes store) := by
  refine ⟨hB, ?_, ?_, ?_⟩
  · show (load_from_taskwarrior opt notes store).tasks.length < USIZE_BOUND
    have := load_tasks_length_le opt notes store
    omega
  · exact load_inv opt notes store
  · intro op hm
    exact absurd hm (by simp [initSession])

/-- C7: every session state reachable from an initial load by any sequence
of key events (without a panic) keeps the selection invariant — when the
task sequence is non-empty, the selection is `some i` with
`i < length` — and a load over a non-empty fetch selects index 0. -/
theorem C7_selection_invariant (opt : Opt) (notes : String → String) (store : List Task)
    (keys : List Key) (st : SessState) (hB : store.length < USIZE_BOUND)
    (hrun : runKeys opt notes (initSession opt notes store) keys = some st) :
    (st.cs.tasks ≠ [] →
      ∃ i, st.cs.list_state.selected = some i ∧ i < st.cs.tasks.length) ∧
    (fetchTasks opt store ≠ [] →
      (load_from_taskwarrior opt notes store).list_state.selected = some 0) := by
  have hinv := runKeys_inv opt notes keys (initSession opt notes store) st
    (initSession_inv opt notes store hB) hrun
  refine ⟨hinv.2.2.1, ?_⟩
  intro hne
  apply load_selected_of_ne_nil
  show sortTasks (fetchTasks opt store) ≠ []
  intro he
  have : (sortTasks (fetchTasks opt store)).length = 0 := by rw [he]; rfl
  rw [length_sortTasks] at this
  exact hne (List.length_eq_zero.mp this)

/-- C7 witness: the empty key sequence over the two-task fixture store. -/
theorem C7_selection_invariant_witness :
    ((initSession optDefault notes0 store0).cs.tasks ≠ [] →
      ∃ i, (initSession optDefault notes0 store0).cs.list_state.selected = some i ∧
        i < (initSession optDefault notes0 store0).cs.tasks.length) ∧
    (fetchTasks optDefault store0 ≠ [] →
      (load_from_taskwarrior optDefault notes0 store0).list_state.selected = some 0) :=
  C7_selection_invariant optDefault notes0 store0 [] (initSession optDefault notes0 store0)
    (by decide) rfl

/-! Claim theorems. -/

/-- C10: the comparator used by load's sort — `partial_cmp` on the optional
string estimates — always yields an ordering (`some`), so the `unwrap` in
`load_from_taskwarrior` never panics and the sort is total for all inputs. -/
theorem C10_estimate_cmp_never_panics (a b : Task) :
    ∃ o : Ordering, optEstimateCmp a.estimate b.estimate = some o := by
  cases a.estimate <;> cases b.estimate <;> exact ⟨_, rfl⟩

/-- C1 (evidence of the code bug): after committing the reordered sequence
`[B, A]` (keys `s`, down, enter) against a store holding estimates
`A = "1"`, `B = "2"`, the store's estimates are unchanged — `Task::save`
never writes the estimate field — and the reload that follows the flush
reverts the order to `[A, B]` instead of persisting `[B, A]` with estimates
`B = 0`, `A = 1`. -/
theorem C1_flush_drops_estimates :
    (runKeys optDefault notes0 (initSession optDefault notes0 store0)
        [Key.char 's', Key.down, Key.char '\n']).map
      (fun st => (st.store.map Task.estimate, st.cs.tasks.map Task.uuid)) =
      some ([some "1", some "2"], ["uuid-a", "uuid-b"]) := by decide

/-- C2 counterexample: a task with an absent estimate is placed at the
beginning of the sorted sequence, before a task that has an estimate — not
at the end as the claim states (`None` is least in the derived
`Option` ordering). -/
theorem C2_counterexample :
    sortTasks [taskA1, taskNoEst] = [taskNoEst, taskA1] ∧
    sortTasks [taskA1, taskNoEst] ≠ [taskA1, taskNoEst] ∧
    taskNoEst.estimate = none ∧ taskA1.estimate = some "1" := by decide

/-- C2 (amended): for every fetched task list, load sorts the tasks by
estimate ascending under the derived `Option` ordering, in which an absent
estimate compares as least — so tasks without an estimate are placed at the
beginning of the sorted sequence, before every task that has one. -/
theorem C2_amended_none_sorts_first (opt : Opt) (notes : String → String)
    (store : List Task) :
    ((load_from_taskwarrior opt notes store).tasks).Pairwise estLeProp ∧
    ((load_from_taskwarrior opt notes store).tasks).Pairwise
      (fun a b => b.estimate = none → a.estimate = none) := by
  have hs : ((load_from_taskwarrior opt notes store).tasks).Pairwise estLeProp :=
    @List.sorted_insertionSort Task estLeProp instDecEstLeProp
      ⟨estLeProp_total⟩ ⟨estLeProp_trans⟩ (fetchTasks opt store)
  exact ⟨hs, hs.imp (fun hab hb => estimate_none_of_le_none _ _ hab hb)⟩

/-- C8: the sort performed by load is stable — any pair of fetched tasks
with equal estimates keeps its relative fetch order in the sorted
snapshot. -/
theorem C8_sort_stable (l : List Task) (a b : Task) (hab : a.estimate = b.estimate)
    (h : [a, b].Sublist l) : [a, b].Sublist (sortTasks l) :=
  List.pair_sublist_insertionSort (estLeProp_of_eq a b hab) h

/-- C8 witness: the stability theorem applied to the two equal-estimate
fixture tasks. -/
theorem C8_sort_stable_witness :
    taskEqA.estimate = taskEqB.estimate ∧
    [taskEqA, taskEqB].Sublist (sortTasks [taskEqA, taskEqB]) :=
  ⟨rfl, C8_sort_stable [taskEqA, taskEqB] taskEqA taskEqB rfl (List.Sublist.refl _)⟩

/-- C3 counterexample: on the empty snapshot the cursor-movement keys are
not all no-ops — `g` sets the selection to `some 0` (changing it from
`none`), `down` sets `some 1` and `G` sets `some (2^64 - 1)` by usize
wraparound — and rendering the preview panics (`selected_contents` hits the
out-of-bounds index, modelled as `none`). -/
theorem C3_counterexample :
    loadEmpty.list_state.selected = none ∧
    (normalUpdate loadEmpty (Key.char 'g')).map (fun p => p.1.list_state.selected) =
      some (some 0) ∧
    some 0 ≠ loadEmpty.list_state.selected ∧
    (normalUpdate loadEmpty Key.down).map (fun p => p.1.list_state.selected) =
      some (some 1) ∧
    (normalUpdate loadEmpty (Key.char 'G')).map (fun p => p.1.list_state.selected) =
      some (some (USIZE_BOUND - 1)) ∧
    loadEmpty.selected_contents = none := by decide

/-- C4 counterexample: pressing esc in Shift mode does not undo — the main
loop's global `q`/esc/ctrl-c arm intercepts esc before `Shift::update` runs,
so the session terminates with the swapped order `[B, A]`, cursor 1 and the
Shift mode still in place, instead of restoring `[A, B]` with cursor 0 in
Normal mode. -/
theorem C4_counterexample :
    (runKeys optDefault notes0 (initSession optDefault notes0 store0)
        [Key.char 's', Key.down, Key.esc]).map
      (fun st => (st.quit, st.mode, st.cs.tasks.map Task.uuid, st.cs.list_state.selected)) =
      some (true, ModeT.shift 0, ["uuid-b", "uuid-a"], some 1) := by decide

/-- C4 (amended): in Shift mode, ctrl-f performs the undo — remove the
selected task, re-insert it at the remembered original position, cursor to
the original position — and transitions to Normal with no flush; in Done
mode, ctrl-f cancels to Normal with no flush and no snapshot change.  Esc,
however, is intercepted by the main loop's global quit arm before either
mode's update runs: in both modes it terminates the session with no flush
and no change to the snapshot. -/
theorem C4_amended (opt : Opt) (notes : String → String) (stS stD : SessState) (op : Nat)
    (hS : stS.mode = ModeT.shift op) (hqS : stS.quit = false)
    (hsel : stS.cs.selected < stS.cs.tasks.length) (hop : op ≤ stS.cs.tasks.length - 1)
    (hD : stD.mode = ModeT.done) (hqD : stD.quit = false) :
    stepKey opt notes stS (Key.ctrl 'f') = some
      { stS with mode := ModeT.normal,
                 cs := { stS.cs with
                   tasks := List.insertIdx op (stS.cs.tasks.get ⟨stS.cs.selected, hsel⟩)
                     (stS.cs.tasks.eraseIdx stS.cs.selected),
                   list_state := { selected := some op } } } ∧
    stepKey opt notes stS Key.esc = some { stS with quit := true } ∧
    stepKey opt notes stD (Key.ctrl 'f') = some { stD with mode := ModeT.normal } ∧
    stepKey opt notes stD Key.esc = some { stD with quit := true } := by
  obtain ⟨mS, csS, storeS, qS⟩ := stS
  obtain ⟨mD, csD, storeD, qD⟩ := stD
  simp only at hS hD hqS hqD hsel hop ⊢
  subst hS
  subst hD
  subst hqS
  subst hqD
  have hfc : (('f' : Char) = 'c') = False := by simp
  refine ⟨?_, ?_, ?_, ?_⟩
  · have hesc := shiftUpdate_escape op csS (Key.ctrl 'f') (Or.inr rfl) hsel hop
    unfold stepKey
    simp [modeUpdate, hesc, hfc]
  · unfold stepKey
    simp
  · unfold stepKey
    simp [modeUpdate, doneUpdate, hfc]
  · unfold stepKey
    simp

/-- C4 witness: the amended statement applied to concrete Shift and Done
states over the two-task fixture snapshot. -/
theorem C4_amended_witness :
    stepKey optDefault notes0
        { mode := ModeT.shift 0, cs := csK, store := store0, quit := false } Key.esc =
      some { mode := ModeT.shift 0, cs := csK, store := store0, quit := true } ∧
    stepKey optDefault notes0
        { mode := ModeT.done, cs := csK, store := store0, quit := false } Key.esc =
      some { mode := ModeT.done, cs := csK, store := store0, quit := true } :=
  ⟨(C4_amended optDefault notes0
      { mode := ModeT.shift 0, cs := csK, store := store0, quit := false }
      { mode := ModeT.done, cs := csK, store := store0, quit := false } 0
      rfl rfl (by decide) (by decide) rfl rfl).2.1,
   (C4_amended optDefault notes0
      { mode := ModeT.shift 0, cs := csK, store := store0, quit := false }
      { mode := ModeT.done, cs := csK, store := store0, quit := false } 0
      rfl rfl (by decide) (by decide) rfl rfl).2.2.2⟩

/-- C5: for every non-empty snapshot, entering Shift at the (valid) cursor
position `p` and applying any finite sequence of up/down swap keystrokes,
the cancel action (the esc/ctrl-f arm of `Shift::update`, reachable in the
running program via ctrl-f) restores exactly the pre-Shift task order and
selection `p`, returning to Normal with no flush. -/
theorem C5_shift_cancel_inverse (cs0 : CommonState) (p : Nat) (ds : List SwapKey)
    (hsel0 : cs0.list_state.selected = some p) (hp : p < cs0.tasks.length)
    (hlen : cs0.tasks.length < USIZE_BOUND) :
    ∃ cs1, applyShiftKeys p cs0 (ds.map SwapKey.toKey) = some cs1 ∧
      (shiftUpdate p cs1 (Key.ctrl 'f')).map
        (fun q => (q.1.tasks, q.1.list_state.selected, q.2.new_mode, q.2.should_flush)) =
      some (cs0.tasks, some p, some ModeT.normal, false) := by
  obtain ⟨⟨sel⟩, tasks0, c⟩ := cs0
  simp only at hsel0 hp hlen ⊢
  subst hsel0
  have hm1 : (tasks0.eraseIdx p).length = tasks0.length - 1 := by
    rw [List.length_eraseIdx]
    simp [hp]
  have hrestore : List.insertIdx p (tasks0.get ⟨p, hp⟩) (tasks0.eraseIdx p) = tasks0 :=
    insertIdx_get_eraseIdx tasks0 p hp
  have hmB : (tasks0.eraseIdx p).length + 1 < USIZE_BOUND := by omega
  have hpm : p ≤ (tasks0.eraseIdx p).length := by omega
  obtain ⟨s2, hs2, hrun⟩ :=
    applyShiftKeys_swaps p (tasks0.eraseIdx p) (tasks0.get ⟨p, hp⟩) c hmB ds p hpm
  rw [hrestore] at hrun
  refine ⟨_, hrun, ?_⟩
  have hlen1 : (List.insertIdx s2 (tasks0.get ⟨p, hp⟩) (tasks0.eraseIdx p)).length =
      (tasks0.eraseIdx p).length + 1 :=
    List.length_insertIdx s2 (tasks0.eraseIdx p) hs2
  have hsel1 : (CommonState.selected
      { list_state := { selected := some s2 },
        tasks := List.insertIdx s2 (tasks0.get ⟨p, hp⟩) (tasks0.eraseIdx p),
        tasks_contents := c }) <
      (List.insertIdx s2 (tasks0.get ⟨p, hp⟩) (tasks0.eraseIdx p)).length := by
    simp only [CommonState.selected, Option.getD_some, hlen1]
    omega
  have hop1 : p ≤ (List.insertIdx s2 (tasks0.get ⟨p, hp⟩) (tasks0.eraseIdx p)).length - 1 := by
    rw [hlen1]
    omega
  have hesc := shiftUpdate_escape p
    { list_state := { selected := some s2 },
      tasks := List.insertIdx s2 (tasks0.get ⟨p, hp⟩) (tasks0.eraseIdx p),
      tasks_contents := c } (Key.ctrl 'f') (Or.inr rfl) hsel1 hop1
  rw [hesc]
  have hsel2 : s2 < (List.insertIdx s2 (tasks0.get ⟨p, hp⟩) (tasks0.eraseIdx p)).length := by
    rw [hlen1]
    omega
  have hget2 : (List.insertIdx s2 (tasks0.get ⟨p, hp⟩) (tasks0.eraseIdx p)).get
      ⟨s2, hsel2⟩ = tasks0.get ⟨p, hp⟩ := by
    simp only [List.get_eq_getElem]
    exact List.getElem_insertIdx_self (tasks0.eraseIdx p) (tasks0.get ⟨p, hp⟩) s2 hs2
  have herase : (List.insertIdx s2 (tasks0.get ⟨p, hp⟩) (tasks0.eraseIdx p)).eraseIdx s2 =
      tasks0.eraseIdx p :=
    List.eraseIdx_insertIdx s2 (tasks0.eraseIdx p)
  simp only [Option.map_some, Option.map_some', CommonState.selected, Option.getD_some,
    hget2, herase, hrestore]

/-- C5 witness: one upward swap from the two-task fixture snapshot at cursor
1, then cancel. -/
theorem C5_shift_cancel_inverse_witness :
    ∃ cs1, applyShiftKeys 1 csK ([SwapKey.up].map SwapKey.toKey) = some cs1 ∧
      (shiftUpdate 1 cs1 (Key.ctrl 'f')).map
        (fun q => (q.1.tasks, q.1.list_state.selected, q.2.new_mode, q.2.should_flush)) =
      some (csK.tasks, some 1, some ModeT.normal, false) :=
  C5_shift_cancel_inverse csK 1 [SwapKey.up] rfl (by decide) (by decide)

/-- C3 (amended): a load that fetches zero tasks yields selection `none`,
and the up/k/K keys leave snapshot and selection unchanged; but `g` sets the
selection to `some 0`, down/j/J set `some 1`, and `G` sets
`some (2^64 - 1)` through usize wraparound, and while the task list renders
empty, the preview panics in `selected_contents` (the unchecked indexing of
the empty sequence). -/
theorem C3_amended (opt : Opt) (notes : String → String) (store : List Task)
    (h : fetchTasks opt store = []) :
    (load_from_taskwarrior opt notes store).list_state.selected = none ∧
    normalUpdate (load_from_taskwarrior opt notes store) Key.up =
      some (load_from_taskwarrior opt notes store, noAction) ∧
    normalUpdate (load_from_taskwarrior opt notes store) (Key.char 'k') =
      some (load_from_taskwarrior opt notes store, noAction) ∧
    normalUpdate (load_from_taskwarrior opt notes store) (Key.char 'K') =
      some (load_from_taskwarrior opt notes store, noAction) ∧
    (normalUpdate (load_from_taskwarrior opt notes store) (Key.char 'g')).map
      (fun p => p.1.list_state.selected) = some (some 0) ∧
    (normalUpdate (load_from_taskwarrior opt notes store) Key.down).map
      (fun p => p.1.list_state.selected) = some (some 1) ∧
    (normalUpdate (load_from_taskwarrior opt notes store) (Key.char 'j')).map
      (fun p => p.1.list_state.selected) = some (some 1) ∧
    (normalUpdate (load_from_taskwarrior opt notes store) (Key.char 'J')).map
      (fun p => p.1.list_state.selected) = some (some 1) ∧
    (normalUpdate (load_from_taskwarrior opt notes store) (Key.char 'G')).map
      (fun p => p.1.list_state.selected) = some (some (USIZE_BOUND - 1)) ∧
    (load_from_taskwarrior opt notes store).selected_contents = none ∧
    renderTaskItems (load_from_taskwarrior opt notes store) = [] := by
  have hcs : load_from_taskwarrior opt notes store =
      { list_state := { selected := none }, tasks := [], tasks_contents := [] } := by
    unfold load_from_taskwarrior
    rw [h]
    rfl
  rw [hcs]
  decide

/-- C3 witness: the amended statement applied to the empty store. -/
theorem C3_amended_witness :
    fetchTasks optDefault [] = [] ∧
    (load_from_taskwarrior optDefault notes0 []).list_state.selected = none :=
  ⟨rfl, (C3_amended optDefault notes0 [] rfl).1⟩

/-- Truncating the wrapping decrement at zero: `0 - 1` on usize is the
largest usize value. -/
theorem usizeSub1_zero : usizeSub1 0 = USIZE_BOUND - 1 := by
  unfold usizeSub1 USIZE_BOUND
  omega

/-- C6 (amended): after a flush, the old numeric selection is preserved
when it is still below the reloaded length; when it is out of bounds and
the reloaded sequence is non-empty it is clamped to the last valid index;
but when the reload yields an empty sequence the code computes `0 - 1` in
usize arithmetic and selects `some (2^64 - 1)`, an out-of-range index (a
debug build would panic on the underflow). -/
theorem C6_amended (opt : Opt) (notes : String → String) (cs : CommonState)
    (store : List Task)
    (hB : (flush_to_taskwarrior opt notes cs store).1.tasks.length < USIZE_BOUND) :
    (cs.selected < (flush_to_taskwarrior opt notes cs store).1.tasks.length →
       (flush_to_taskwarrior opt notes cs store).1.list_state.selected =
         some cs.selected) ∧
    ((flush_to_taskwarrior opt notes cs store).1.tasks.length ≤ cs.selected →
       0 < (flush_to_taskwarrior opt notes cs store).1.tasks.length →
       (flush_to_taskwarrior opt notes cs store).1.list_state.selected =
         some ((flush_to_taskwarrior opt notes cs store).1.tasks.length - 1)) ∧
    ((flush_to_taskwarrior opt notes cs store).1.tasks.length = 0 →
       (flush_to_taskwarrior opt notes cs store).1.list_state.selected =
         some (USIZE_BOUND - 1)) := by
  by_cases hc : (load_from_taskwarrior opt notes (flushStore cs.tasks store)).tasks.length ≤
      cs.selected
  · simp only [flush_to_taskwarrior, hc, if_pos] at hB ⊢
    refine ⟨fun h1 => absurd h1 (by omega), fun _ h2 => ?_, fun h0 => ?_⟩
    · rw [usizeSub1_of_pos _ h2 hB]
    · rw [h0, usizeSub1_zero]
  · simp only [flush_to_taskwarrior, hc, if_neg, if_false] at hB ⊢
    refine ⟨fun _ => trivial, fun h1 _ => h1.elim, fun h0 => ?_⟩
    rw [h0] at hc
    exact absurd (Nat.zero_le _) hc

/-- C6 witness: a flush of the two-task fixture snapshot with the cursor in
bounds keeps the selection at the old index. -/
theorem C6_amended_witness :
    (flush_to_taskwarrior optDefault notes0 csK store0).1.tasks.length < USIZE_BOUND ∧
    (csK.selected < (flush_to_taskwarrior optDefault notes0 csK store0).1.tasks.length →
      (flush_to_taskwarrior optDefault notes0 csK store0).1.list_state.selected =
        some csK.selected) :=
  ⟨by decide, (C6_amended optDefault notes0 csK store0 (by decide)).1⟩

/-- C6 counterexample: marking the only task done and flushing reloads an
empty sequence; the claimed clamp "to the last valid index" is impossible
there, and the code instead computes `0 - 1` in usize arithmetic, selecting
`some (2^64 - 1)` — an out-of-range selection. -/
theorem C6_counterexample :
    (runKeys optDefault notes0 (initSession optDefault notes0 [taskA1])
        [Key.char 'd', Key.char '\n']).map
      (fun st => (st.cs.tasks.length, st.cs.list_state.selected)) =
      some (0, some (USIZE_BOUND - 1)) := by decide

/-- C9 (amended): for every mode and every key not listed in that mode's
transition table — counting the uppercase aliases `K`/`J` of `k`/`j`, which
the source also matches, as listed — the session step is a complete no-op:
mode, snapshot, selection and store are unchanged and no flush, reload or
store call is issued. -/
theorem C9_amended (opt : Opt) (notes : String → String) (st : SessState) (k : Key)
    (h : listedKey st.mode k = false) :
    stepKey opt notes st k = some st := by
  obtain ⟨m, cs, store, q⟩ := st
  simp only at h
  cases q
  case true =>
    unfold stepKey
    simp
  case false =>
    have hglob : ¬ (k = Key.char 'q' ∨ k = Key.esc ∨ k = Key.ctrl 'c') := by
      cases m <;>
        (simp only [listedKey, List.contains_cons, List.contains_nil, Bool.or_eq_false_iff,
          beq_eq_false_iff_ne, ne_eq] at h
         rcases h with ⟨hq, hesc, hcc, _⟩
         rintro (hx | hx | hx) <;> [exact hq hx; exact hesc hx; exact hcc hx])
    cases m
    case normal =>
      unfold stepKey
      simp [hglob, modeUpdate, normalUpdate_unlisted cs k h, noAction]
    case shift op =>
      unfold stepKey
      simp [hglob, modeUpdate, shiftUpdate_unlisted op cs k h, noAction]
    case done =>
      unfold stepKey
      simp [hglob, modeUpdate, doneUpdate_unlisted cs k h, noAction]

/-- C9 witness: the unrecognized key `z` pressed in Normal mode on the
two-task fixture state. -/
theorem C9_amended_witness :
    listedKey stK.mode (Key.char 'z') = false ∧
    stepKey optDefault notes0 stK (Key.char 'z') = some stK :=
  ⟨by decide, C9_amended optDefault notes0 stK (Key.char 'z') (by decide)⟩

/-- C9 counterexample: `K` is not listed in the specification's transition
table for Normal mode, yet it is not a no-op — the source also matches
`'k' | 'K'` and moves the cursor up, from index 1 to index 0. -/
theorem C9_counterexample :
    (stepKey optDefault notes0 stK (Key.char 'K')).map (fun s => s.cs.list_state.selected) =
      some (some 0) ∧ stK.cs.list_state.selected = some 1 := by decide

end Taskn
